import Mathlib

/-!
Verification of the duplicate-file sync/cleanup engine.

This file gives a shallow embedding, in Lean 4, of the scanning,
identification, classification and safe-action engine implemented by the
three Python variants `sync.py`, `sync_cache_smart.py` and
`sync_cloud_smart.py`, and proves or refutes the frozen specification
claims about it.

Modelling conventions:
* Paths are POSIX-style strings; `os.path` functions are modelled at the
  level of `/`-separated components (`parsePath`, `abspath`, `commonpath`).
  `os.path.abspath` takes the current working directory as an explicit
  `cwd` parameter, since Python resolves relative paths against it.
* File contents are byte lists (`List Nat`); an unreadable file is a
  `none` in the file-system map, matching the bare `except` handlers
  around `os.stat`/`open`.
* The MD5 digest is an abstract parameter `digestFn : List Nat → String`
  of the development; the incremental `hasher.update` structure of the
  source is kept (the hasher state is the list of bytes fed so far, and
  `hexdigest` applies `digestFn` to it), so every theorem holds for the
  real MD5 as a special case.
* The concurrent completion loop of `process_folder_parallel` is modelled
  sequentially over the list of worker results in completion order,
  together with a free-space oracle `freeGb : Nat → ℚ` giving the value
  `get_free_space_gb(folder)` would return at the i-th loop iteration
  (free space varies over time, hence the index).
* Qt/Tk callbacks are modelled as returned data: progress percents as a
  `List ℚ`, the alert callback as a list of reported free-space readings,
  message boxes as constructors of small sum types.
-/

/-! ## Path model (os.path on POSIX) -/

/-- Raw parsed form of a path string: whether it is absolute, and its
`/`-separated components (empty components dropped, as `os.path.normpath`
collapses duplicate separators). -/
structure RawPath where
  absolute : Bool
  comps : List String
deriving DecidableEq, Repr

/-- Splits a character list at every `/`, keeping empty components. -/
def compsAux : List Char → List Char → List String
  | [], cur => [String.mk cur.reverse]
  | c :: rest, cur =>
    if c = '/' then String.mk cur.reverse :: compsAux rest [] else compsAux rest (c :: cur)

/-- Parses a POSIX path string into a `RawPath`. -/
def parsePath (s : String) : RawPath :=
  { absolute := match s.data with
      | [] => false
      | c :: _ => c = '/'
    comps := (compsAux s.data []).filter (fun c => c ≠ "") }

/-- One step of `os.path.normpath` component normalisation: drops `.`,
resolves `..` against the accumulated prefix (absolute paths drop a
leading `..`, relative paths keep it). The accumulator is reversed. -/
def normStep (absolute : Bool) (acc : List String) (c : String) : List String :=
  if c = "." then acc
  else if c = ".." then
    match acc with
    | [] => if absolute then [] else [".."]
    | a :: rest => if a = ".." then c :: acc else rest
  else c :: acc

/-- Component normalisation of `os.path.normpath`. -/
def normComps (absolute : Bool) (cs : List String) : List String :=
  (cs.foldl (normStep absolute) []).reverse

/-- Model of `os.path.abspath`: a relative path is joined onto the current
working directory `cwd` (itself given as normalised absolute components),
then normalised. Returns the components of the resulting absolute path. -/
def abspath (cwd : List String) (p : RawPath) : List String :=
  if p.absolute then normComps true p.comps
  else normComps true (cwd ++ p.comps)

/-- Model of `os.path.commonpath` for two absolute paths: the longest
common component prefix (the empty list is the root `/`). -/
def commonpath : List String → List String → List String
  | a :: as, b :: bs => if a = b then a :: commonpath as bs else []
  | _, _ => []

/-- Safety-guard containment predicate of `sync.py` (`is_subpath`): both
arguments are passed through `os.path.abspath` and the parent must equal
`os.path.commonpath([parent, path])`. Note there is no special case for
an empty `parent` in this variant; `abspath("")` resolves to `cwd`. Both
results of `abspath` are absolute, so the `ValueError` branch of the
source (mixed absolute/relative arguments) cannot fire and is omitted. -/
def Sync.is_subpath (cwd : List String) (path parent : String) : Bool :=
  let p := abspath cwd (parsePath path)
  let par := abspath cwd (parsePath parent)
  commonpath par p = par

/-- Safety-guard containment predicate of `sync_cache_smart.py` and
`sync_cloud_smart.py`: identical to the `sync.py` one except for the
leading `if not parent: return False` check. The parent is an
`Option String` since the apps store `master_path = None` in
single-folder mode; both `none` and the empty string are falsy. -/
def Guarded.is_subpath (cwd : List String) (path : String) (parent : Option String) : Bool :=
  match parent with
  | none => false
  | some par => if par = "" then false else Sync.is_subpath cwd path par

/-- Python truthiness of an optional string (`None` and `""` are falsy). -/
def pyTruthy : Option String → Bool
  | none => false
  | some s => s ≠ ""

/-! ## Disk-space probe (`get_free_space_gb`) -/

/-- Model of `get_free_space_gb` in `sync_cloud_smart.py`:
`shutil.disk_usage` is modelled as an optional `(total, used, free)`
byte triple, `none` when the call raises (e.g. the folder does not
exist); on failure the probe returns `100` (GB). -/
def CloudSmart.get_free_space_gb (usage : Option (Nat × Nat × Nat)) : ℚ :=
  match usage with
  | some (_total, _used, free) => (free : ℚ) / (1024 ^ 3)
  | none => 100

/-- Model of `get_free_space_gb` in `sync_cache_smart.py`: additionally
returns `100` when the folder argument is falsy or does not exist
(`present` models `os.path.exists(folder)`). -/
def CacheSmart.get_free_space_gb (folder : Option String) (present : Bool)
    (usage : Option (Nat × Nat × Nat)) : ℚ :=
  if pyTruthy folder = false ∨ present = false then 100
  else
    match usage with
    | some (_total, _used, free) => (free : ℚ) / (1024 ^ 3)
    | none => 100

/-! ## Identity function (`Comparator.get_identifier`) -/

/-- Identity key of a file: fast mode is `(basename, size)`, exact (hash)
mode is `(size, hexdigest)`. In Python these are plain tuples. -/
inductive IdentKey where
  | fastId (name : String) (size : Nat)
  | exactId (size : Nat) (digest : String)
deriving DecidableEq, Repr

/-- Model of `os.path.basename`: everything after the last `/`. -/
def basenameS (s : String) : String :=
  (compsAux s.data []).getLastD ""

/-- The 64 KiB chunks successively returned by `f.read(65536)` over a
file whose full content is `l`. -/
def readChunks (l : List Nat) : List (List Nat) :=
  if l = [] then [] else l.take 65536 :: readChunks (l.drop 65536)
termination_by l.length
decreasing_by
  simp only [List.length_drop]
  exact Nat.sub_lt (List.length_pos.mpr (by assumption)) (by omega)

/-- The hasher state (bytes fed so far) after `hasher.update(chunk)` over
every chunk; `hexdigest` is `digestFn` applied to the final state. -/
def feedChunks (st : List Nat) : List (List Nat) → List Nat
  | [] => st
  | c :: cs => feedChunks (st ++ c) cs

/-- Model of `Comparator.get_identifier` in `sync.py`: `fs` maps a path
to its byte content, `none` when `os.stat`/`open`/`read` raises (the
bare `except` returns `None`). Fast mode never reads content bytes but
does require a successful `os.stat`; its key uses the size,
`content.length`. -/
def Sync.get_identifier (digestFn : List Nat → String) (use_hash : Bool)
    (fs : String → Option (List Nat)) (filepath : String) : Option IdentKey :=
  match fs filepath with
  | none => none
  | some content =>
    if use_hash = false then some (.fastId (basenameS filepath) content.length)
    else some (.exactId content.length (digestFn (feedChunks [] (readChunks content))))

/-- Model of `Comparator.get_identifier` in `sync_cache_smart.py` and
`sync_cloud_smart.py`: returns `(filepath, key?)` and checks the
cancellation flag first, returning `(filepath, None)` without touching
the file system when it is set. The in-loop re-check of the flag inside
the chunked read collapses in this sequential model, where the flag
cannot change during one call. -/
def get_identifier_p (digestFn : List Nat → String) (use_hash : Bool)
    (fs : String → Option (List Nat)) (stop : Bool) (filepath : String) :
    String × Option IdentKey :=
  if stop then (filepath, none)
  else
    match fs filepath with
    | none => (filepath, none)
    | some content =>
      if use_hash = false then (filepath, some (.fastId (basenameS filepath) content.length))
      else (filepath, some (.exactId content.length (digestFn (feedChunks [] (readChunks content)))))

/-! ## Parallel indexer (`Comparator.process_folder_parallel`) -/

/-- An index: a mapping from identity key to the bucket of paths sharing
it, in insertion order (Python dict iteration order), modelled as an
association list. -/
abbrev Index := List (IdentKey × List String)

/-- Model of `if ident not in index: index[ident] = []` followed by
`index[ident].append(path)`: appends to an existing bucket, or creates a
new bucket at the end (a fresh dict key is appended in iteration
order). -/
def indexAdd (idx : Index) (k : IdentKey) (p : String) : Index :=
  match idx with
  | [] => [(k, [p])]
  | (k', ps) :: rest => if k' = k then (k', ps ++ [p]) :: rest else (k', ps) :: indexAdd rest k p

/-- Folds one completed worker result into the index (results with an
absent key are dropped). -/
def foldResult (idx : Index) (r : String × Option IdentKey) : Index :=
  match r.2 with
  | none => idx
  | some k => indexAdd idx k r.1

/-- Outcome of one `process_folder_parallel` call: the returned index,
the final state of the shared cancellation flag, and the free-space
readings reported through the alert callback. -/
structure ScanOutcome where
  index : Index
  stopSet : Bool
  alerts : List ℚ
deriving DecidableEq, Repr

/-- The result-collection loop of `process_folder_parallel`, iterating
over completed worker results in completion order. At every 50th
iteration (`i % 50 == 0`) the free space is sampled; a reading below
5 GB sets the cancellation flag, raises one alert with the reading, and
returns an empty index, discarding everything folded so far and every
remaining result. -/
def scanLoop (freeGb : Nat → ℚ) : Nat → List (String × Option IdentKey) → Index → ScanOutcome
  | _, [], idx => ⟨idx, false, []⟩
  | i, r :: rs, idx =>
    if i % 50 = 0 ∧ freeGb i < 5 then ⟨[], true, [freeGb i]⟩
    else scanLoop freeGb (i + 1) rs (foldResult idx r)

/-- Model of `Comparator.process_folder_parallel` (identical control
flow in `sync_cache_smart.py` and `sync_cloud_smart.py`): returns an
empty index immediately when the cancellation flag is already set,
otherwise runs the collection loop from `i = 0`. Enumeration and the
`total == 0` early return are subsumed by `results = []`. -/
def process_folder_parallel (stop0 : Bool) (freeGb : Nat → ℚ)
    (results : List (String × Option IdentKey)) : ScanOutcome :=
  if stop0 then ⟨[], stop0, []⟩
  else scanLoop freeGb 0 results []

/-- Predicate for the disk-space abort: some sampling point of the loop
(a result index `k` with `k % 50 == 0`, `k` below the number of
completions) measures less than 5 GB free. -/
abbrev triggersAbort (freeGb : Nat → ℚ) (n : Nat) : Prop :=
  ∃ k < n, k % 50 = 0 ∧ freeGb k < 5

/-- Model of `Comparator.run` in `sync_cache_smart.py`: indexes the
target (cleanup) tree, stops if the flag was set, then indexes the
master (protected) tree when a master path is configured, stops if the
flag was set, and otherwise delivers both raw indices to the finish
callback. Returns the delivered payload (`none` when the scan was
cancelled) and the concatenated alert readings. `sync_cloud_smart.py`
has the same structure with classification fused after indexing. -/
def comparatorRun (masterPresent : Bool) (freeT freeM : Nat → ℚ)
    (resT resM : List (String × Option IdentKey)) :
    Option (Index × Index) × List ℚ :=
  let oT := process_folder_parallel false freeT resT
  if oT.stopSet then (none, oT.alerts)
  else
    let oM := if masterPresent then process_folder_parallel oT.stopSet freeM resM
              else ⟨[], false, []⟩
    if oM.stopSet then (none, oT.alerts ++ oM.alerts)
    else (some (oM.index, oT.index), oT.alerts ++ oM.alerts)

/-! ## Duplicate classifier -/

/-- A cross-duplicate record: the dict
`(master_file = master_idx[ident][0], target_files = t_paths)` built by
both smart variants. -/
structure CrossDup where
  master_file : String
  target_files : List String
deriving DecidableEq, Repr

/-- Dict membership/lookup on an association-list index. -/
def lookupIdx (idx : Index) (k : IdentKey) : Option (List String) :=
  (idx.find? (fun kv => kv.1 = k)).map (fun kv => kv.2)

/-- Classification loop of `Comparator.run` in `sync_cloud_smart.py`:
for each `(ident, t_paths)` of the target index in iteration order, if
`self.master` is truthy and `ident` is in the master index, emit a
cross-duplicate record with representative `master_idx[ident][0]`
(buckets are nonempty by construction; `headD` with a default models
the `[0]` subscript); otherwise emit `t_paths` as an internal duplicate
group when it has more than one member. -/
def classify_cloud (master : Option String) (master_idx : Index) :
    Index → List CrossDup × List (List String)
  | [] => ([], [])
  | (ident, t_paths) :: rest =>
    let r := classify_cloud master master_idx rest
    match (if pyTruthy master then lookupIdx master_idx ident else none) with
    | some m_paths => (⟨m_paths.headD "", t_paths⟩ :: r.1, r.2)
    | none => if t_paths.length > 1 then (r.1, t_paths :: r.2) else r

/-- Classification loop of `App.calculate_and_populate` in
`sync_cache_smart.py`: same shape, but the cross condition is
`self.mode.get() == 1 and self.last_master_idx and ident in
self.last_master_idx` (mode 1 is two-folder mode; the middle conjunct is
dict truthiness, i.e. the master index is nonempty). -/
def classify_cache (mode : Int) (master_idx : Index) :
    Index → List CrossDup × List (List String)
  | [] => ([], [])
  | (ident, t_paths) :: rest =>
    let r := classify_cache mode master_idx rest
    match (if mode = 1 ∧ master_idx ≠ [] then lookupIdx master_idx ident else none) with
    | some m_paths => (⟨m_paths.headD "", t_paths⟩ :: r.1, r.2)
    | none => if t_paths.length > 1 then (r.1, t_paths :: r.2) else r

/-- Spec-side description of the emitted cross-duplicate records, one per
target-index key whose lookup condition holds, in key order: the
representative is the first entry of the protected bucket and the
members are the cleanup bucket. -/
def crossSpec (cond : IdentKey → Option (List String)) (tidx : Index) : List CrossDup :=
  tidx.filterMap (fun kv => (cond kv.1).map (fun ms => ⟨ms.headD "", kv.2⟩))

/-- Spec-side description of the emitted internal duplicate groups: the
cleanup buckets of the keys with no protected match and more than one
member, in key order. -/
def internalSpec (cond : IdentKey → Option (List String)) (tidx : Index) : List (List String) :=
  tidx.filterMap (fun kv =>
    if cond kv.1 = none ∧ kv.2.length > 1 then some kv.2 else none)

/-! ## Action executor -/

/-- Model of `os.path.join(dest, name)` for a non-empty `dest` with no
trailing separator and a relative `name`, the only shape occurring in
the executor. -/
def pjoin (dest name : String) : String :=
  dest ++ "/" ++ name

/-- Model of `os.path.splitext` on a basename (no separators): splits at
the last dot, unless every character before that dot is itself a dot
(so `.bashrc` has no extension), in which case the extension is
empty. -/
def splitext (s : String) : String × String :=
  let r := s.data.reverse
  let extRev := r.takeWhile (fun c => c ≠ '.')
  match r.dropWhile (fun c => c ≠ '.') with
  | [] => (s, "")
  | _ :: preRev =>
    if preRev.any (fun c => c ≠ '.') then
      (String.mk preRev.reverse, String.mk ('.' :: extRev.reverse))
    else (s, "")

/-- The collision candidate built in the rename loop of
`App.move_dupes`: the Python f-string joining
`name + "_" + str(c) + ext` under `dest`. -/
def suffixName (dest name ext : String) (c : Nat) : String :=
  pjoin dest (name ++ "_" ++ Nat.repr c ++ ext)

/-- The `while os.path.exists(target)` rename loop of `App.move_dupes`,
made total with explicit fuel (the fuel `fs.length + 1` used below is
proven sufficient, since at most `fs.length` candidate names can be
taken). `fs` is the set of paths existing on disk. -/
def findFrom (fs : List String) (dest name ext : String) : Nat → Nat → String
  | 0, c => suffixName dest name ext c
  | fuel + 1, c =>
    if suffixName dest name ext c ∈ fs then findFrom fs dest name ext fuel (c + 1)
    else suffixName dest name ext c

/-- Destination-name computation of `App.move_dupes` for one candidate:
`target = os.path.join(dest, fname)`, then while a file of that name
exists, `name_c + ext` with `c` incremented from 1. -/
def findTarget (fs : List String) (dest fname : String) : String :=
  let base := pjoin dest fname
  if base ∈ fs then
    findFrom fs dest (splitext fname).1 (splitext fname).2 (fs.length + 1) 1
  else base

/-- State threaded through the `App.move_dupes` batch: the set of paths
existing on disk, the moved and skipped counters, the `(src, dst)` pairs
actually passed to `shutil.move`, and an instrumentation bit recording
whether any move destination already existed at the moment of the
move. -/
structure MoveState where
  fs : List String
  count : Nat
  skipped : Nat
  movedPairs : List (String × String)
  overwrote : Bool
deriving DecidableEq, Repr

/-- One candidate of the `App.move_dupes` loop in `sync.py`: a candidate
inside the protected folder is counted as skipped and not acted on;
otherwise the collision-free destination is computed and the move
performed (the per-file `except` path, which logs an I/O failure and
continues, is outside this model: moves succeed). -/
def moveStep (cwd : List String) (master_path dest : String) (st : MoveState)
    (t_path : String) : MoveState :=
  if Sync.is_subpath cwd t_path master_path then
    { st with skipped := st.skipped + 1 }
  else
    let target := findTarget st.fs dest (basenameS t_path)
    { fs := target :: st.fs.erase t_path
      count := st.count + 1
      skipped := st.skipped
      movedPairs := st.movedPairs ++ [(t_path, target)]
      overwrote := st.overwrote || decide (target ∈ st.fs) }

/-- Model of `App.move_dupes` in `sync.py`: iterates over every
`target_files` entry of every scan result. -/
def move_dupes (cwd : List String) (master_path dest : String)
    (scan_results : List CrossDup) (fs0 : List String) : MoveState :=
  scan_results.foldl (fun st d => d.target_files.foldl (moveStep cwd master_path dest) st)
    ⟨fs0, 0, 0, [], false⟩

/-- Total number of candidate paths in a batch of scan results. -/
def totalCandidates (scan_results : List CrossDup) : Nat :=
  (scan_results.map (fun d => d.target_files.length)).sum

/-- Model of `App.trash_dupes` in `sync.py`: the list of paths passed to
the trash/delete primitive, i.e. every candidate not vetoed by
`is_subpath(t_path, self.master_path)`. -/
def trash_dupes_list (cwd : List String) (master_path : String)
    (scan_results : List CrossDup) : List String :=
  scan_results.flatMap (fun d =>
    d.target_files.filter (fun p => Sync.is_subpath cwd p master_path = false))

/-- Veto check of `App.trash_cross` in the smart variants:
`if self.master_path and is_subpath(path, self.master_path): continue`
keeps the path unless the master path is truthy and contains it. -/
def crossKeep (cwd : List String) (master_path : Option String) (p : String) : Bool :=
  match master_path with
  | none => true
  | some m => if m = "" then true else !(Sync.is_subpath cwd p m)

/-- Model of `App.trash_cross` in `sync_cache_smart.py` and
`sync_cloud_smart.py`: the list of paths passed to `send2trash`. -/
def trash_cross_list (cwd : List String) (master_path : Option String)
    (cross_dupes : List CrossDup) : List String :=
  cross_dupes.flatMap (fun d => d.target_files.filter (crossKeep cwd master_path))

/-- Stable ascending sort by path length, modelling
`group.sort(key=len)`. -/
def sortByLen (g : List String) : List String :=
  g.mergeSort (fun a b => a.length ≤ b.length)

/-- Model of `App.auto_cull_internal` in the smart variants: for every
internal-duplicate group, sorts by path length, keeps the first
(shortest) entry and passes every other entry of the group to
`send2trash`. No containment check is performed. -/
def auto_cull_list (internal_dupes : List (List String)) : List String :=
  internal_dupes.flatMap (fun group => (sortByLen group).drop 1)

/-- Model of `App.delete_selected_internal` in the smart variants: the
selected tree row's path is passed to `send2trash` whenever it is
nonempty, exists on disk and the user confirms. No containment check is
performed. -/
def delete_selected_list (fs : List String) (path : String) (confirmed : Bool) : List String :=
  if path = "" then []
  else if path ∈ fs then (if confirmed then [path] else [])
  else []

/-! ## Scan-state persistence (`App.save_cache` / `App.load_cache`) -/

/-- Leaf payloads a cache file can hold at a dict key: an index (the
shape `save_cache` writes for `master`/`target`), an integer (the shape
written for `mode`), or a string (an arbitrary foreign payload). -/
inductive PLeaf where
  | pindex (idx : Index)
  | pint (n : Int)
  | pstr (s : String)
deriving DecidableEq, Repr

/-- A successfully unpickled cache payload: either a dict with string
keys, or some non-dict object. -/
inductive PValue where
  | pdict (entries : List (String × PLeaf))
  | pleaf (l : PLeaf)
deriving DecidableEq, Repr

/-- The in-memory scan state of `App` in `sync_cache_smart.py` that
`load_cache` assigns: the two raw indices and the mode variable. Fields
are dynamically typed (`PLeaf`) exactly as in Python, since `load_cache`
performs no type validation. -/
structure CacheState where
  last_master_idx : PLeaf
  last_target_idx : PLeaf
  mode : PLeaf
deriving DecidableEq, Repr

/-- Python `dict.get(k, default)`. -/
def dget (entries : List (String × PLeaf)) (k : String) (dflt : PLeaf) : PLeaf :=
  match entries.find? (fun kv => kv.1 = k) with
  | some kv => kv.2
  | none => dflt

/-- Model of `App.load_cache` in `sync_cache_smart.py`. The input is the
unpickling outcome: `none` when opening or `pickle.load` raises (the
`except` shows an error box and leaves the state untouched); a non-dict
payload makes the first `data.get` raise `AttributeError` before any
assignment (same `except`); a dict payload is accepted unconditionally,
each missing key silently replaced by its default (`{}`, `{}`, `2`).
Returns the resulting state and whether the error box was shown. -/
def load_cache (st : CacheState) (loaded : Option PValue) : CacheState × Bool :=
  match loaded with
  | none => (st, true)
  | some (.pleaf _) => (st, true)
  | some (.pdict entries) =>
    ({ last_master_idx := dget entries "master" (.pindex [])
       last_target_idx := dget entries "target" (.pindex [])
       mode := dget entries "mode" (.pint 2) }, false)

/-! ## Scan-request validation (`App.start_scan`) -/

/-- Outcome of `App.start_scan`: either an error box shown before any
scanning work, or a `Comparator` started with the given master and
target paths. -/
inductive ScanStart where
  | rejected (msg : String)
  | started (master : Option String) (target : String)
deriving DecidableEq, Repr

/-- Model of `App.start_scan` in `sync.py`: requires both folders and
rejects identical folders, before constructing the `Comparator`. -/
def Sync.start_scan (m t : String) : ScanStart :=
  if m = "" ∨ t = "" then .rejected "Select both folders."
  else if m = t then .rejected "Master and Target cannot be the same folder!"
  else .started (some m) t

/-- Model of `App.start_scan` in `sync_cache_smart.py`: the master entry
is only consulted in mode 1; the only validation is a non-empty target.
No identical-roots check is performed. -/
def CacheSmart.start_scan (mode : Int) (entMaster entTarget : String) : ScanStart :=
  let m : Option String := if mode = 1 then some entMaster else none
  if entTarget = "" then .rejected "Select Target/Cleanup folder."
  else .started m entTarget

/-- Model of `App.start_scan` in `sync_cloud_smart.py`: identical logic
to the cache variant up to the message text. -/
def CloudSmart.start_scan (mode : Int) (entMaster entTarget : String) : ScanStart :=
  let m : Option String := if mode = 1 then some entMaster else none
  if entTarget = "" then .rejected "Please select a Target/Cleanup folder."
  else .started m entTarget

/-! ## Progress reporting (`sync.py`) -/

/-- Percent values delivered by `Comparator.index_folder` in `sync.py`
while indexing one folder of `total` files: at every `i % 50 == 0` it
reports `(i / total) * 50`. Python float arithmetic is modelled over ℚ
(rounding cannot affect the order facts proved here). -/
def index_folder_updates (total : Nat) : List ℚ :=
  (List.range total).filterMap (fun (i : Nat) =>
    if i % 50 = 0 then some ((((i : Nat) : ℚ) / ((total : Nat) : ℚ)) * 50) else none)

/-- The full percent sequence one `Comparator.run` in `sync.py` delivers
to the progress callback: `0` before indexing the master folder, the
master-phase reports, `50` before indexing the target folder, the
target-phase reports, and `90` before comparing. -/
def run_updates (totalM totalT : Nat) : List ℚ :=
  0 :: (index_folder_updates totalM ++ 50 :: (index_folder_updates totalT ++ [90]))

/-! ## Decimal representation of naturals (for the rename counter) -/

/-- Decimal digit characters of a natural number, most significant
first; reference definition used to reason about `Nat.repr`. -/
def decChars (n : Nat) : List Char :=
  if n < 10 then [Nat.digitChar n]
  else decChars (n / 10) ++ [Nat.digitChar (n % 10)]
decreasing_by exact Nat.div_lt_self (by omega) (by omega)

/-! ## Claims C5, C8, C10, C7 -/

/-- Claim C5, corrected. The claim holds for the guarded predicate of
`sync_cache_smart.py` and `sync_cloud_smart.py`: for every candidate
path, an absent (`None`) or empty protected root makes the guard return
false. It fails for the `sync.py` variant (see the counterexample),
which has no empty-root check. -/
theorem claim_C5_amended : ∀ (cwd : List String) (path : String),
    Guarded.is_subpath cwd path none = false ∧
    Guarded.is_subpath cwd path (some "") = false := by
  intro cwd path
  exact ⟨rfl, rfl⟩

/-- Claim C5 counterexample: in the `sync.py` variant, an empty
protected-root argument is resolved by `os.path.abspath` against the
current working directory (here `/w`), so a candidate below the working
directory is reported as contained — the guard returns `true`, not
`false`, for the empty root. -/
theorem claim_C5_counterexample : Sync.is_subpath ["w"] "/w/a.txt" "" = true := by decide

/-- Claim C8, corrected. A missing/empty cleanup root is rejected before
any scan starts in all three variants, and `sync.py` also rejects equal
roots; but the smart variants perform no identical-roots check (see the
counterexample). -/
theorem claim_C8_amended :
    (∀ m : String, Sync.start_scan m "" = .rejected "Select both folders.")
    ∧ (∀ t : String, Sync.start_scan "" t = .rejected "Select both folders.")
    ∧ (∀ m t : String, m ≠ "" → t ≠ "" → m = t →
        Sync.start_scan m t = .rejected "Master and Target cannot be the same folder!")
    ∧ (∀ (mode : Int) (entM : String),
        CacheSmart.start_scan mode entM "" = .rejected "Select Target/Cleanup folder.")
    ∧ (∀ (mode : Int) (entM : String),
        CloudSmart.start_scan mode entM "" = .rejected "Please select a Target/Cleanup folder.") := by
  refine ⟨?_, ?_, ?_, ?_, ?_⟩
  · intro m
    simp [Sync.start_scan]
  · intro t
    simp [Sync.start_scan]
  · intro m t hm ht he
    simp [Sync.start_scan, hm, ht, he]
  · intro mode entM
    simp [CacheSmart.start_scan]
  · intro mode entM
    simp [CloudSmart.start_scan]

/-- Claim C8 witness: the rejection branches fire on concrete inputs. -/
theorem claim_C8_amended_witness :
    Sync.start_scan "/A" "/A" = .rejected "Master and Target cannot be the same folder!" :=
  claim_C8_amended.2.2.1 "/A" "/A" (by decide) (by decide) rfl

/-- Claim C8 counterexample: in the smart variants, a two-folder scan
with the protected root equal to the cleanup root is not rejected — the
`Comparator` is started with identical roots. -/
theorem claim_C8_counterexample :
    CacheSmart.start_scan 1 "/A" "/A" = .started (some "/A") "/A" ∧
    CloudSmart.start_scan 1 "/A" "/A" = .started (some "/A") "/A" := by
  constructor <;> rfl

/-- Claim C10, confirmed: whenever the free-space probe fails (falsy or
nonexistent folder in the cache variant, or a raising `disk_usage` in
either variant), it returns 100 GB, which is not below the 5 GB floor,
so a failed probe never triggers the disk-space abort. -/
theorem claim_C10 :
    (∀ (folder : Option String) (present : Bool) (usage : Option (Nat × Nat × Nat)),
        pyTruthy folder = false ∨ present = false ∨ usage = none →
        CacheSmart.get_free_space_gb folder present usage = 100 ∧
        ¬ CacheSmart.get_free_space_gb folder present usage < 5)
    ∧ (CloudSmart.get_free_space_gb none = 100 ∧ ¬ CloudSmart.get_free_space_gb none < 5) := by
  constructor
  · intro folder present usage h
    have h100 : CacheSmart.get_free_space_gb folder present usage = 100 := by
      rcases h with h | h | h
      · simp [CacheSmart.get_free_space_gb, h]
      · simp [CacheSmart.get_free_space_gb, h]
      · unfold CacheSmart.get_free_space_gb
        rcases hf : pyTruthy folder with _ | _ <;> rcases present with _ | _ <;> simp [h]
    refine ⟨h100, ?_⟩
    rw [h100]
    norm_num
  · refine ⟨rfl, ?_⟩
    show ¬ (100 : ℚ) < 5
    norm_num

/-- Claim C10 witness: a probe on a `None` folder with a failing
`disk_usage` returns 100 GB and does not trigger the abort. -/
theorem claim_C10_witness :
    CacheSmart.get_free_space_gb none false none = 100 ∧
    ¬ CacheSmart.get_free_space_gb none false none < 5 :=
  claim_C10.1 none false none (Or.inl rfl)

/-- Claim C7, corrected. The failure paths hold: an unpickling error or
a non-dict payload leave the in-memory indices and mode untouched and
report an error. But a successfully unpickled dict is accepted
unconditionally: missing `master`/`target`/`mode` entries silently
default to empty indices and single-folder mode, replacing the previous
in-memory state — a structurally mismatched cache can be interpreted as
a valid empty scan (see the counterexample). -/
theorem claim_C7_amended :
    (∀ st, load_cache st none = (st, true))
    ∧ (∀ st l, load_cache st (some (.pleaf l)) = (st, true))
    ∧ (∀ st entries, load_cache st (some (.pdict entries)) =
        ({ last_master_idx := dget entries "master" (.pindex [])
           last_target_idx := dget entries "target" (.pindex [])
           mode := dget entries "mode" (.pint 2) }, false)) :=
  ⟨fun _ => rfl, fun _ _ => rfl, fun _ _ => rfl⟩

/-- Claim C7 counterexample: loading a cache file holding the pickled
empty dict — which does not match the `PersistedScanState` structure —
does not fail: no error is reported, and the previous in-memory indices
and mode are replaced by empty indices and single-folder mode, i.e. the
load is interpreted as a valid empty scan. -/
theorem claim_C7_counterexample :
    (load_cache ⟨.pindex [(.fastId "x.txt" 1, ["/c/x.txt"])],
                 .pindex [(.fastId "x.txt" 1, ["/d/x.txt"])], .pint 1⟩
        (some (.pdict []))).2 = false ∧
    (load_cache ⟨.pindex [(.fastId "x.txt" 1, ["/c/x.txt"])],
                 .pindex [(.fastId "x.txt" 1, ["/d/x.txt"])], .pint 1⟩
        (some (.pdict []))).1 = ⟨.pindex [], .pindex [], .pint 2⟩ ∧
    (⟨.pindex [], .pindex [], .pint 2⟩ : CacheState) ≠
      ⟨.pindex [(.fastId "x.txt" 1, ["/c/x.txt"])],
       .pindex [(.fastId "x.txt" 1, ["/d/x.txt"])], .pint 1⟩ := by
  refine ⟨rfl, rfl, ?_⟩
  decide

/-! ## Claim C2: classifier characterisation -/

/-- Helper: lookup in the empty index always misses. -/
theorem lookupIdx_nil (k : IdentKey) : lookupIdx [] k = none := rfl

/-- Helper: the dict-truthiness conjunct of the cache-variant condition
is redundant given a successful lookup. -/
theorem cache_cond_eq (mode : Int) (midx : Index) (k : IdentKey) :
    (if mode = 1 ∧ midx ≠ [] then lookupIdx midx k else none) =
    (if mode = 1 then lookupIdx midx k else none) := by
  by_cases hm : mode = 1
  · rcases midx with _ | ⟨kv, rest⟩
    · simp [hm, lookupIdx_nil]
    · simp [hm]
  · simp [hm]

/-- Helper: one unfolding step of the spec-side cross list. -/
theorem crossSpec_cons (cond : IdentKey → Option (List String)) (kv : IdentKey × List String)
    (rest : Index) :
    crossSpec cond (kv :: rest) =
      (match cond kv.1 with
       | some ms => (⟨ms.headD "", kv.2⟩ : CrossDup) :: crossSpec cond rest
       | none => crossSpec cond rest) := by
  unfold crossSpec
  rw [List.filterMap_cons]
  rcases cond kv.1 with _ | ms <;> simp

/-- Helper: one unfolding step of the spec-side internal-group list. -/
theorem internalSpec_cons (cond : IdentKey → Option (List String)) (kv : IdentKey × List String)
    (rest : Index) :
    internalSpec cond (kv :: rest) =
      if cond kv.1 = none ∧ kv.2.length > 1 then kv.2 :: internalSpec cond rest
      else internalSpec cond rest := by
  unfold internalSpec
  rw [List.filterMap_cons]
  by_cases hP : cond kv.1 = none ∧ kv.2.length > 1 <;> simp [hP]

/-- Helper: structural characterisation of the cloud-variant classifier. -/
theorem classify_cloud_eq (master : Option String) (midx : Index) (tidx : Index) :
    classify_cloud master midx tidx =
      (crossSpec (fun k => if pyTruthy master then lookupIdx midx k else none) tidx,
       internalSpec (fun k => if pyTruthy master then lookupIdx midx k else none) tidx) := by
  induction tidx with
  | nil => rfl
  | cons kv rest ih =>
    obtain ⟨ident, t_paths⟩ := kv
    simp only [classify_cloud, ih]
    rw [crossSpec_cons, internalSpec_cons]
    rcases h : (if pyTruthy master then lookupIdx midx ident else none) with _ | m_paths
    · by_cases hl : t_paths.length > 1 <;> simp [hl]
    · simp

/-- Helper: structural characterisation of the cache-variant classifier. -/
theorem classify_cache_eq (mode : Int) (midx : Index) (tidx : Index) :
    classify_cache mode midx tidx =
      (crossSpec (fun k => if mode = 1 then lookupIdx midx k else none) tidx,
       internalSpec (fun k => if mode = 1 then lookupIdx midx k else none) tidx) := by
  induction tidx with
  | nil => rfl
  | cons kv rest ih =>
    obtain ⟨ident, t_paths⟩ := kv
    simp only [classify_cache, ih, cache_cond_eq]
    rw [crossSpec_cons, internalSpec_cons]
    rcases h : (if mode = 1 then lookupIdx midx ident else none) with _ | m_paths
    · by_cases hl : t_paths.length > 1 <;> simp [hl]
    · simp

/-- Claim C2, confirmed: in both smart variants the classifier emits,
for each key of the cleanup index in iteration order, a cross-duplicate
record (representative = first entry of the protected bucket, members =
the cleanup bucket) exactly when the mode is two-folder (cloud variant:
a truthy master path; cache variant: mode 1) and the key is present in
the protected index; otherwise the cleanup bucket as an internal
duplicate group exactly when it has more than one entry; and nothing
for a singleton bucket with no protected match. Cross members are never
also emitted as an internal group (the two emissions come from disjoint
conditions on the same key). -/
theorem claim_C2 :
    (∀ (master : Option String) (midx tidx : Index),
      classify_cloud master midx tidx =
        (crossSpec (fun k => if pyTruthy master then lookupIdx midx k else none) tidx,
         internalSpec (fun k => if pyTruthy master then lookupIdx midx k else none) tidx))
    ∧ (∀ (mode : Int) (midx tidx : Index),
      classify_cache mode midx tidx =
        (crossSpec (fun k => if mode = 1 then lookupIdx midx k else none) tidx,
         internalSpec (fun k => if mode = 1 then lookupIdx midx k else none) tidx)) :=
  ⟨classify_cloud_eq, classify_cache_eq⟩

/-! ## Claim C3: exact-mode identity depends only on content -/

/-- Helper: feeding the chunked reads of a file to the hasher
accumulates exactly the full content. -/
theorem feedChunks_readChunks (l : List Nat) : ∀ st, feedChunks st (readChunks l) = st ++ l := by
  have H : ∀ (n : Nat) (l : List Nat), l.length ≤ n →
      ∀ st, feedChunks st (readChunks l) = st ++ l := by
    intro n
    induction n with
    | zero =>
      intro l hl st
      have hnil : l = [] := List.eq_nil_of_length_eq_zero (by omega)
      subst hnil
      rw [readChunks]
      simp [feedChunks]
    | succ n ih =>
      intro l hl st
      rw [readChunks]
      by_cases h : l = []
      · simp [h, feedChunks]
      · rw [if_neg h, feedChunks]
        have hlen : (l.drop 65536).length ≤ n := by
          have := List.length_pos.mpr h
          simp only [List.length_drop]
          omega
        rw [ih (l.drop 65536) hlen, List.append_assoc, List.take_append_drop]
  exact H l.length l le_rfl

/-- Claim C3, confirmed: in exact (hash) mode, two readable files with
identical byte content receive equal identity keys in every variant,
whatever their names or directories, and for every digest function. -/
theorem claim_C3 :
    ∀ (digestFn : List Nat → String) (fs : String → Option (List Nat))
      (p1 p2 : String) (c : List Nat),
      fs p1 = some c → fs p2 = some c →
      Sync.get_identifier digestFn true fs p1 = Sync.get_identifier digestFn true fs p2 ∧
      (get_identifier_p digestFn true fs false p1).2 = (get_identifier_p digestFn true fs false p2).2 := by
  intro digestFn fs p1 p2 c h1 h2
  constructor
  · simp [Sync.get_identifier, h1, h2]
  · simp [get_identifier_p, h1, h2]

/-- Claim C3 witness: two files in different directories with different
names but the same single byte of content get the same exact-mode key. -/
theorem claim_C3_witness :
    Sync.get_identifier (fun l => Nat.repr l.length) true
        (fun p => if p = "/a/x.bin" ∨ p = "/b/y.bin" then some [7] else none) "/a/x.bin" =
      Sync.get_identifier (fun l => Nat.repr l.length) true
        (fun p => if p = "/a/x.bin" ∨ p = "/b/y.bin" then some [7] else none) "/b/y.bin" ∧
    (get_identifier_p (fun l => Nat.repr l.length) true
        (fun p => if p = "/a/x.bin" ∨ p = "/b/y.bin" then some [7] else none) false "/a/x.bin").2 =
      (get_identifier_p (fun l => Nat.repr l.length) true
        (fun p => if p = "/a/x.bin" ∨ p = "/b/y.bin" then some [7] else none) false "/b/y.bin").2 :=
  claim_C3 (fun l => Nat.repr l.length)
    (fun p => if p = "/a/x.bin" ∨ p = "/b/y.bin" then some [7] else none)
    "/a/x.bin" "/b/y.bin" [7] (by decide) (by decide)

/-! ## Claim C1: guard at the moment of destructive actions -/

/-- Helper: every `(src, dst)` pair a `move_dupes` candidate fold adds
comes from a candidate the guard cleared. -/
theorem moveFold_pairs (cwd : List String) (master_path dest : String) :
    ∀ (l : List String) (st : MoveState) (pr : String × String),
      pr ∈ (l.foldl (moveStep cwd master_path dest) st).movedPairs →
      pr ∈ st.movedPairs ∨ Sync.is_subpath cwd pr.1 master_path = false := by
  intro l
  induction l with
  | nil => intro st pr h; exact Or.inl h
  | cons t rest ih =>
    intro st pr h
    rw [List.foldl_cons] at h
    rcases ih (moveStep cwd master_path dest st t) pr h with hmem | hguard
    · unfold moveStep at hmem
      by_cases hg : Sync.is_subpath cwd t master_path = true
      · rw [if_pos hg] at hmem
        exact Or.inl hmem
      · rw [if_neg hg] at hmem
        simp only [List.mem_append, List.mem_singleton] at hmem
        rcases hmem with hmem | rfl
        · exact Or.inl hmem
        · exact Or.inr (by simpa using hg)
    · exact Or.inr hguard

/-- Helper: the same over the outer fold of `move_dupes`. -/
theorem move_dupes_pairs (cwd : List String) (master_path dest : String) :
    ∀ (results : List CrossDup) (st : MoveState) (pr : String × String),
      pr ∈ (results.foldl
        (fun st d => d.target_files.foldl (moveStep cwd master_path dest) st) st).movedPairs →
      pr ∈ st.movedPairs ∨ Sync.is_subpath cwd pr.1 master_path = false := by
  intro results
  induction results with
  | nil => intro st pr h; exact Or.inl h
  | cons d rest ih =>
    intro st pr h
    rw [List.foldl_cons] at h
    rcases ih _ pr h with hmem | hguard
    · rcases moveFold_pairs cwd master_path dest d.target_files st pr hmem with hmem2 | hguard
      · exact Or.inl hmem2
      · exact Or.inr hguard
    · exact Or.inr hguard

/-- Claim C1, corrected. The guard is re-evaluated at the moment of the
action for the move batch and the trash batches over cross-duplicates:
no path passed to `shutil.move` by `move_dupes`, to the trash primitive
by `trash_dupes`, or to `send2trash` by `trash_cross` (when a protected
root is configured) is a descendant of the protected root. The claim
fails for the two internal-duplicate batches (`delete_selected_internal`
and `auto_cull_internal`), which perform no containment check at all —
see the counterexample. -/
theorem claim_C1_amended :
    (∀ (cwd : List String) (master_path dest : String) (scan_results : List CrossDup)
       (fs0 : List String) (pr : String × String),
       pr ∈ (move_dupes cwd master_path dest scan_results fs0).movedPairs →
       Sync.is_subpath cwd pr.1 master_path = false)
    ∧ (∀ (cwd : List String) (master_path : String) (scan_results : List CrossDup) (p : String),
       p ∈ trash_dupes_list cwd master_path scan_results →
       Sync.is_subpath cwd p master_path = false)
    ∧ (∀ (cwd : List String) (m : String) (cross_dupes : List CrossDup) (p : String),
       m ≠ "" → p ∈ trash_cross_list cwd (some m) cross_dupes →
       Sync.is_subpath cwd p m = false) := by
  refine ⟨?_, ?_, ?_⟩
  · intro cwd master_path dest scan_results fs0 pr h
    rcases move_dupes_pairs cwd master_path dest scan_results _ pr h with hmem | hguard
    · simp at hmem
    · exact hguard
  · intro cwd master_path scan_results p h
    unfold trash_dupes_list at h
    rw [List.mem_flatMap] at h
    obtain ⟨d, _, hp⟩ := h
    rw [List.mem_filter] at hp
    exact of_decide_eq_true hp.2
  · intro cwd m cross_dupes p hm h
    unfold trash_cross_list at h
    rw [List.mem_flatMap] at h
    obtain ⟨d, _, hp⟩ := h
    rw [List.mem_filter] at hp
    have hk := hp.2
    simp [crossKeep, hm] at hk
    exact hk

/-- Claim C1 witness: a concrete trash batch containing one protected
and one unprotected candidate passes only the unprotected one. -/
theorem claim_C1_amended_witness :
    Sync.is_subpath [] "/c/a.txt" "/p" = false :=
  claim_C1_amended.2.1 [] "/p" [⟨"/p/doc.txt", ["/c/a.txt", "/p/sub/b.txt"]⟩] "/c/a.txt"
    (by decide)

unseal List.merge List.mergeSort in
/-- Claim C1 counterexample: the internal-duplicate batches pass
protected descendants to the trash primitive. With protected root `/p`,
the internal group `[/q/b.txt, /p/sub/a.txt]` (already in ascending
path-length order, so `sort(key=len)` keeps it) makes
`auto_cull_internal` trash `/p/sub/a.txt`, and selecting that existing
path in `delete_selected_internal` trashes it too, although the guard
itself confirms it is a descendant of the protected root. -/
theorem claim_C1_counterexample :
    auto_cull_list [["/q/b.txt", "/p/sub/a.txt"]] = ["/p/sub/a.txt"] ∧
    delete_selected_list ["/p/sub/a.txt"] "/p/sub/a.txt" true = ["/p/sub/a.txt"] ∧
    Sync.is_subpath [] "/p/sub/a.txt" "/p" = true := by
  refine ⟨?_, ?_, ?_⟩ <;> decide

/-! ## Claim C4: disk-space abort -/

/-- Helper: if some sampling point within the remaining results measures
below the floor, the collection loop aborts: empty index, flag set,
exactly one alert carrying a low measured reading. -/
theorem scanLoop_abort (freeGb : Nat → ℚ) :
    ∀ (rs : List (String × Option IdentKey)) (i : Nat) (idx : Index),
      (∃ k, i ≤ k ∧ k < i + rs.length ∧ k % 50 = 0 ∧ freeGb k < 5) →
      ∃ k, k % 50 = 0 ∧ freeGb k < 5 ∧ scanLoop freeGb i rs idx = ⟨[], true, [freeGb k]⟩ := by
  intro rs
  induction rs with
  | nil =>
    intro i idx h
    obtain ⟨k, h1, h2, _⟩ := h
    simp at h2
    omega
  | cons r rest ih =>
    intro i idx h
    by_cases hc : i % 50 = 0 ∧ freeGb i < 5
    · refine ⟨i, hc.1, hc.2, ?_⟩
      simp only [scanLoop]
      rw [if_pos hc]
    · obtain ⟨k, hk1, hk2, hk3, hk4⟩ := h
      have hki : k ≠ i := by
        rintro rfl
        exact hc ⟨hk3, hk4⟩
      have hsh : ∃ k, i + 1 ≤ k ∧ k < (i + 1) + rest.length ∧ k % 50 = 0 ∧ freeGb k < 5 := by
        refine ⟨k, by omega, ?_, hk3, hk4⟩
        simp only [List.length_cons] at hk2
        omega
      obtain ⟨k', h1', h2', h3'⟩ := ih (i + 1) (foldResult idx r) hsh
      refine ⟨k', h1', h2', ?_⟩
      simp only [scanLoop]
      rw [if_neg hc]
      exact h3'

/-- Helper: if no sampling point within the remaining results measures
below the floor, the loop folds every result and reports nothing. -/
theorem scanLoop_no_abort (freeGb : Nat → ℚ) :
    ∀ (rs : List (String × Option IdentKey)) (i : Nat) (idx : Index),
      (∀ k, i ≤ k → k < i + rs.length → ¬(k % 50 = 0 ∧ freeGb k < 5)) →
      scanLoop freeGb i rs idx = ⟨rs.foldl foldResult idx, false, []⟩ := by
  intro rs
  induction rs with
  | nil => intro i idx _; rfl
  | cons r rest ih =>
    intro i idx h
    have hc : ¬(i % 50 = 0 ∧ freeGb i < 5) := h i le_rfl (by simp)
    simp only [scanLoop]
    rw [if_neg hc, List.foldl_cons]
    exact ih (i + 1) (foldResult idx r) (fun k hk1 hk2 => h k (by omega) (by
      simp only [List.length_cons]
      omega))

/-- Claim C4, confirmed: whenever a free-space sample at a sampling
point (every 50th completed result) measures below 5 GB, the indexer
sets the cancellation flag, returns an empty index (nothing folded,
pending results discarded), and raises exactly one alert carrying a
measured low reading; at the scan level the finish callback never fires
and exactly one alert is delivered; with no low sample, everything is
folded and no alert is raised; and once the flag is set, every
identification task returns `(path, None)` for every file system,
i.e. without reading anything. -/
theorem claim_C4 :
    (∀ (freeGb : Nat → ℚ) (results : List (String × Option IdentKey)),
        triggersAbort freeGb results.length →
        ∃ k, k % 50 = 0 ∧ freeGb k < 5 ∧
          process_folder_parallel false freeGb results = ⟨[], true, [freeGb k]⟩)
    ∧ (∀ (freeGb : Nat → ℚ) (results : List (String × Option IdentKey)),
        ¬ triggersAbort freeGb results.length →
        process_folder_parallel false freeGb results = ⟨results.foldl foldResult [], false, []⟩)
    ∧ (∀ (masterPresent : Bool) (freeT freeM : Nat → ℚ)
         (resT resM : List (String × Option IdentKey)),
        triggersAbort freeT resT.length →
        (comparatorRun masterPresent freeT freeM resT resM).1 = none ∧
        (comparatorRun masterPresent freeT freeM resT resM).2.length = 1)
    ∧ (∀ (digestFn : List Nat → String) (use_hash : Bool)
         (fs : String → Option (List Nat)) (p : String),
        get_identifier_p digestFn use_hash fs true p = (p, none)) := by
  have habort : ∀ (freeGb : Nat → ℚ) (results : List (String × Option IdentKey)),
      triggersAbort freeGb results.length →
      ∃ k, k % 50 = 0 ∧ freeGb k < 5 ∧
        process_folder_parallel false freeGb results = ⟨[], true, [freeGb k]⟩ := by
    intro freeGb results h
    obtain ⟨k, hk, h50, h5⟩ := h
    obtain ⟨k', h1', h2', h3'⟩ := scanLoop_abort freeGb results 0 []
      ⟨k, by omega, by omega, h50, h5⟩
    exact ⟨k', h1', h2', by simpa [process_folder_parallel] using h3'⟩
  refine ⟨habort, ?_, ?_, ?_⟩
  · intro freeGb results h
    have : ∀ k, 0 ≤ k → k < 0 + results.length → ¬(k % 50 = 0 ∧ freeGb k < 5) := by
      intro k _ hk hand
      exact h ⟨k, by omega, hand.1, hand.2⟩
    simpa [process_folder_parallel] using scanLoop_no_abort freeGb results 0 [] this
  · intro masterPresent freeT freeM resT resM h
    obtain ⟨k, h50, h5, heq⟩ := habort freeT resT h
    unfold comparatorRun
    rw [heq]
    exact ⟨rfl, rfl⟩
  · intro digestFn use_hash fs p
    rfl

/-- Claim C4 witness: a scan of one file whose first free-space sample
reads 1 GB delivers no finish payload and exactly one alert. -/
theorem claim_C4_witness :
    triggersAbort (fun _ => (1 : ℚ)) ([("/c/f.txt", (none : Option IdentKey))].length) ∧
    (comparatorRun false (fun _ => (1 : ℚ)) (fun _ => (1 : ℚ))
        [("/c/f.txt", none)] []).1 = none ∧
    (comparatorRun false (fun _ => (1 : ℚ)) (fun _ => (1 : ℚ))
        [("/c/f.txt", none)] []).2.length = 1 :=
  have h : triggersAbort (fun _ => (1 : ℚ)) ([("/c/f.txt", (none : Option IdentKey))].length) :=
    ⟨0, by decide, by decide, by decide⟩
  ⟨h, (claim_C4.2.2.1 false _ _ _ _ h).1, (claim_C4.2.2.1 false _ _ _ _ h).2⟩

/-! ## Claim C9: progress percent sequence -/

/-- Helper: within one `index_folder` phase the reported percents are
non-decreasing. -/
theorem index_folder_updates_chain (total : Nat) :
    List.Chain' (· ≤ ·) (index_folder_updates total) := by
  by_cases htot : total = 0
  · subst htot
    simp [index_folder_updates]
  · rw [List.chain'_iff_pairwise]
    unfold index_folder_updates
    rw [List.pairwise_filterMap]
    refine (List.pairwise_lt_range total).imp ?_
    intro i j hij b hb b' hb'
    by_cases hi : i % 50 = 0
    · by_cases hj : j % 50 = 0
      · rw [if_pos hi] at hb
        rw [if_pos hj] at hb'
        simp only [Option.mem_def, Option.some.injEq] at hb hb'
        subst hb hb'
        have ht : (0 : ℚ) < (total : ℚ) := by
          exact_mod_cast Nat.pos_of_ne_zero htot
        have hc : (i : ℚ) ≤ (j : ℚ) := by exact_mod_cast Nat.le_of_lt hij
        have hdiv : (i : ℚ) / (total : ℚ) ≤ (j : ℚ) / (total : ℚ) := by
          apply div_le_div_of_nonneg_right hc ht.le
        nlinarith
      · rw [if_neg hj] at hb'
        simp at hb'
    · rw [if_neg hi] at hb
      simp at hb

/-- Helper: every percent one `index_folder` phase reports lies in
`[0, 50]`. -/
theorem index_folder_updates_bounds (total : Nat) :
    ∀ p ∈ index_folder_updates total, 0 ≤ p ∧ p ≤ 50 := by
  intro p hp
  unfold index_folder_updates at hp
  rw [List.mem_filterMap] at hp
  obtain ⟨i, hi, hif⟩ := hp
  rw [List.mem_range] at hi
  by_cases h50 : i % 50 = 0
  · rw [if_pos h50] at hif
    simp only [Option.some.injEq] at hif
    subst hif
    have ht : (0 : ℚ) < (total : ℚ) := by
      exact_mod_cast Nat.pos_of_ne_zero (by omega)
    constructor
    · positivity
    · have hle : (i : ℚ) / (total : ℚ) ≤ 1 := by
        rw [div_le_one ht]
        exact_mod_cast Nat.le_of_lt hi
      nlinarith
  · rw [if_neg h50] at hif
    simp at hif

/-- Claim C9, corrected. Within one folder-indexing phase the percents
reported by `Comparator.index_folder` in `sync.py` are monotonically
non-decreasing, and every percent a scan delivers lies in `[0, 100]`;
but across a whole scan the sequence is not monotonic — it restarts at
0 when the second folder phase begins and drops to 90 for the compare
step (see the counterexample). -/
theorem claim_C9_amended :
    (∀ total : Nat, List.Chain' (· ≤ ·) (index_folder_updates total))
    ∧ (∀ (totalM totalT : Nat) (p : ℚ), p ∈ run_updates totalM totalT →
        0 ≤ p ∧ p ≤ 100) := by
  refine ⟨index_folder_updates_chain, ?_⟩
  intro totalM totalT p hp
  unfold run_updates at hp
  simp only [List.mem_cons, List.mem_append, List.mem_singleton] at hp
  rcases hp with rfl | hm | rfl | ht | (rfl | h0)
  · norm_num
  · have := index_folder_updates_bounds totalM p hm
    constructor
    · exact this.1
    · linarith [this.2]
  · norm_num
  · have := index_folder_updates_bounds totalT p ht
    constructor
    · exact this.1
    · linarith [this.2]
  · norm_num
  · exact absurd h0 (List.not_mem_nil p)

/-- Claim C9 witness: the percent 90 reported at the compare step of a
two-file scan lies within bounds. -/
theorem claim_C9_amended_witness : (0 : ℚ) ≤ 90 ∧ (90 : ℚ) ≤ 100 :=
  claim_C9_amended.2 1 1 90 (by simp [run_updates])

/-- Claim C9 counterexample: one scan of `sync.py` over a one-file
master folder and a one-file target folder reports the percent sequence
`0, 0, 50, 0, 90`, which is not monotonically non-decreasing (50 is
followed by 0 when the target phase starts). -/
theorem claim_C9_counterexample : ¬ List.Chain' (· ≤ ·) (run_updates 1 1) := by
  have h : run_updates 1 1 = [0, 0, 50, 0, 90] := by
    have hr : List.range 1 = [0] := rfl
    norm_num [run_updates, index_folder_updates, hr, List.filterMap_cons]
  rw [h]
  norm_num [List.chain'_cons]

/-! ## Claim C6: collision-free move -/

/-- Helper: unfolding equation of `decChars`. -/
theorem decChars_eq (n : Nat) : decChars n =
    if n < 10 then [Nat.digitChar n] else decChars (n / 10) ++ [Nat.digitChar (n % 10)] := by
  rw [decChars]

/-- Helper: a decimal representation is never empty. -/
theorem decChars_ne_nil (n : Nat) : decChars n ≠ [] := by
  rw [decChars_eq]
  split <;> simp

/-- Helper: a decimal representation has positive length. -/
theorem decChars_length_pos (n : Nat) : 0 < (decChars n).length :=
  List.length_pos.mpr (decChars_ne_nil n)

/-- Helper: with sufficient fuel, the core digit loop of `Nat.repr`
computes `decChars`. -/
theorem toDigitsCore_eq (fuel n : Nat) (ds : List Char) (h : n < fuel) :
    Nat.toDigitsCore 10 fuel n ds = decChars n ++ ds := by
  induction fuel generalizing n ds with
  | zero => omega
  | succ f ih =>
    rw [Nat.toDigitsCore]
    by_cases h10 : n / 10 = 0
    · rw [if_pos h10, decChars_eq, if_pos (by omega : n < 10)]
      have hmod : n % 10 = n := Nat.mod_eq_of_lt (by omega)
      rw [hmod]
      simp
    · rw [if_neg h10]
      rw [ih (n / 10) _ (by omega)]
      conv_rhs => rw [decChars_eq]
      rw [if_neg (by omega : ¬ n < 10)]
      simp

/-- Helper: `Nat.repr` is the string of `decChars`. -/
theorem repr_eq_decChars (n : Nat) : Nat.repr n = (decChars n).asString := by
  unfold Nat.repr Nat.toDigits
  rw [toDigitsCore_eq _ _ _ (by omega)]
  simp [List.asString]

/-- Helper: `Nat.digitChar` is injective below 10. -/
theorem digitChar_inj {m n : Nat} (hm : m < 10) (hn : n < 10)
    (h : Nat.digitChar m = Nat.digitChar n) : m = n := by
  interval_cases m <;> interval_cases n <;> simp_all [Nat.digitChar]

/-- Helper: decimal digit lists are injective. -/
theorem decChars_inj : Function.Injective decChars := by
  intro m n h
  induction m using Nat.strong_induction_on generalizing n with
  | _ m ih =>
    rw [decChars_eq m, decChars_eq n] at h
    by_cases hm : m < 10 <;> by_cases hn : n < 10
    · rw [if_pos hm, if_pos hn] at h
      exact digitChar_inj hm hn (by simpa using h)
    · rw [if_pos hm, if_neg hn] at h
      have hlen := congrArg List.length h
      have := decChars_length_pos (n / 10)
      simp only [List.length_append, List.length_cons, List.length_nil] at hlen
      omega
    · rw [if_neg hm, if_pos hn] at h
      have hlen := congrArg List.length h
      have := decChars_length_pos (m / 10)
      simp only [List.length_append, List.length_cons, List.length_nil] at hlen
      omega
    · rw [if_neg hm, if_neg hn] at h
      have h2 := List.append_inj' h (by simp)
      have hdiv : m / 10 = n / 10 :=
        ih (m / 10) (Nat.div_lt_self (by omega) (by omega)) h2.1
      have hmod : m % 10 = n % 10 := by
        have hx := h2.2
        simp only [List.cons.injEq] at hx
        exact digitChar_inj (Nat.mod_lt _ (by omega)) (Nat.mod_lt _ (by omega)) hx.1
      omega

/-- Helper: `Nat.repr` is injective (distinct rename counters yield
distinct decimal strings). -/
theorem nat_repr_inj : Function.Injective Nat.repr := by
  intro m n h
  rw [repr_eq_decChars, repr_eq_decChars] at h
  apply decChars_inj
  have hd := congrArg String.data h
  simpa [List.asString] using hd

/-- Helper: the rename candidates are injective in the counter. -/
theorem suffixName_inj (dest name ext : String) :
    Function.Injective (fun c => suffixName dest name ext c) := by
  intro c1 c2 h
  simp only [suffixName, pjoin] at h
  have hd := congrArg String.data h
  simp only [String.data_append, List.append_assoc] at hd
  replace hd := List.append_cancel_left hd
  replace hd := List.append_cancel_left hd
  replace hd := List.append_cancel_left hd
  replace hd := List.append_cancel_left hd
  replace hd := List.append_cancel_right hd
  exact nat_repr_inj (String.ext hd)

/-- Helper (pigeonhole): an injective stream of names cannot be blocked
everywhere by a finite set of existing paths. -/
theorem exists_free_name (fs : List String) (f : Nat → String)
    (hf : Function.Injective f) : ∃ k ≤ fs.length, f k ∉ fs := by
  by_contra hcon
  push_neg at hcon
  have hsub : (Finset.range (fs.length + 1)).image f ⊆ fs.toFinset := by
    intro x hx
    rw [Finset.mem_image] at hx
    obtain ⟨k, hk, rfl⟩ := hx
    rw [Finset.mem_range] at hk
    rw [List.mem_toFinset]
    exact hcon k (by omega)
  have hcard := Finset.card_le_card hsub
  rw [Finset.card_image_of_injective _ hf, Finset.card_range] at hcard
  have := fs.toFinset_card_le
  omega

/-- Helper: the rename loop, given enough fuel to reach a free name,
returns the first candidate not present on disk. -/
theorem findFrom_spec (fs : List String) (dest name ext : String) :
    ∀ (fuel c : Nat), (∃ k < fuel, suffixName dest name ext (c + k) ∉ fs) →
      findFrom fs dest name ext fuel c ∉ fs ∧
      ∃ k, findFrom fs dest name ext fuel c = suffixName dest name ext (c + k) ∧
        ∀ j < k, suffixName dest name ext (c + j) ∈ fs := by
  intro fuel
  induction fuel with
  | zero =>
    intro c h
    obtain ⟨k, hk, _⟩ := h
    omega
  | succ fuel ih =>
    intro c h
    by_cases hc : suffixName dest name ext c ∈ fs
    · have hsh : ∃ k < fuel, suffixName dest name ext (c + 1 + k) ∉ fs := by
        obtain ⟨k, hk, hnot⟩ := h
        cases k with
        | zero =>
          rw [Nat.add_zero] at hnot
          exact absurd hc hnot
        | succ k =>
          refine ⟨k, by omega, ?_⟩
          have he : c + 1 + k = c + (k + 1) := by omega
          rw [he]
          exact hnot
      obtain ⟨h1, k', hk', hmin⟩ := ih (c + 1) hsh
      refine ⟨?_, k' + 1, ?_, ?_⟩
      · simp only [findFrom]
        rw [if_pos hc]
        exact h1
      · simp only [findFrom]
        rw [if_pos hc, hk']
        have he : c + 1 + k' = c + (k' + 1) := by omega
        rw [he]
      · intro j hj
        cases j with
        | zero =>
          rw [Nat.add_zero]
          exact hc
        | succ j =>
          have hx := hmin j (by omega)
          have he : c + 1 + j = c + (j + 1) := by omega
          rw [he] at hx
          exact hx
    · refine ⟨?_, 0, ?_, ?_⟩
      · simp only [findFrom]
        rw [if_neg hc]
        exact hc
      · simp only [findFrom]
        rw [if_neg hc, Nat.add_zero]
      · intro j hj
        omega

/-- Helper: the destination chosen by the rename loop never exists on
disk at the moment it is chosen. -/
theorem findTarget_not_mem (fs : List String) (dest fname : String) :
    findTarget fs dest fname ∉ fs := by
  simp only [findTarget]
  by_cases hb : pjoin dest fname ∈ fs
  · rw [if_pos hb]
    have hinj : Function.Injective
        (fun k => suffixName dest (splitext fname).1 (splitext fname).2 (1 + k)) := by
      intro a b hab
      have hs := suffixName_inj dest (splitext fname).1 (splitext fname).2 hab
      omega
    obtain ⟨k, hk, hfree⟩ := exists_free_name fs _ hinj
    exact (findFrom_spec fs dest (splitext fname).1 (splitext fname).2 (fs.length + 1) 1
      ⟨k, by omega, hfree⟩).1
  · rw [if_neg hb]
    exact hb

/-- Helper: when the plain destination name is free it is used as is. -/
theorem findTarget_base (fs : List String) (dest fname : String)
    (h : pjoin dest fname ∉ fs) : findTarget fs dest fname = pjoin dest fname := by
  simp only [findTarget]
  rw [if_neg h]

/-- Helper: when the plain destination name is taken, the first free
numeric-suffix candidate from 1 upward is used. -/
theorem findTarget_suffix (fs : List String) (dest fname : String)
    (h : pjoin dest fname ∈ fs) :
    ∃ c, 1 ≤ c ∧
      findTarget fs dest fname = suffixName dest (splitext fname).1 (splitext fname).2 c ∧
      ∀ j, 1 ≤ j → j < c → suffixName dest (splitext fname).1 (splitext fname).2 j ∈ fs := by
  have hinj : Function.Injective
      (fun k => suffixName dest (splitext fname).1 (splitext fname).2 (1 + k)) := by
    intro a b hab
    have hs := suffixName_inj dest (splitext fname).1 (splitext fname).2 hab
    omega
  obtain ⟨k, hk, hfree⟩ := exists_free_name fs _ hinj
  obtain ⟨h1, k', hk', hmin⟩ := findFrom_spec fs dest (splitext fname).1 (splitext fname).2
    (fs.length + 1) 1 ⟨k, by omega, hfree⟩
  refine ⟨1 + k', by omega, ?_, ?_⟩
  · simp only [findTarget]
    rw [if_pos h]
    exact hk'
  · intro j hj1 hjk
    have hx := hmin (j - 1) (by omega)
    have he : 1 + (j - 1) = j := by omega
    rw [he] at hx
    exact hx

/-- Helper: a property preserved by a fold step holds of the fold. -/
theorem foldl_preserve {α β : Type} (P : α → Prop) (step : α → β → α)
    (hstep : ∀ a b, P a → P (step a b)) :
    ∀ (l : List β) (a : α), P a → P (l.foldl step a) := by
  intro l
  induction l with
  | nil => intro a h; exact h
  | cons x xs ih =>
    intro a h
    rw [List.foldl_cons]
    exact ih _ (hstep a x h)

/-- Helper: one move step never overwrites: the chosen destination does
not exist at the moment of the move. -/
theorem moveStep_overwrote (cwd : List String) (master_path dest : String)
    (st : MoveState) (t : String) (h : st.overwrote = false) :
    (moveStep cwd master_path dest st t).overwrote = false := by
  unfold moveStep
  by_cases hg : Sync.is_subpath cwd t master_path = true
  · rw [if_pos hg]
    exact h
  · rw [if_neg hg]
    simp only [h, Bool.false_or]
    exact decide_eq_false (findTarget_not_mem st.fs dest (basenameS t))

/-- Helper: the moved counter counts exactly the pairs passed to the
move primitive. -/
theorem moveStep_count (cwd : List String) (master_path dest : String)
    (st : MoveState) (t : String) (h : st.count = st.movedPairs.length) :
    (moveStep cwd master_path dest st t).count =
      (moveStep cwd master_path dest st t).movedPairs.length := by
  unfold moveStep
  by_cases hg : Sync.is_subpath cwd t master_path = true
  · rw [if_pos hg]
    exact h
  · rw [if_neg hg]
    simp [h]

/-- Helper: every candidate is either moved or skipped. -/
theorem moveStep_total (cwd : List String) (master_path dest : String)
    (st : MoveState) (t : String) :
    (moveStep cwd master_path dest st t).count + (moveStep cwd master_path dest st t).skipped =
      st.count + st.skipped + 1 := by
  unfold moveStep
  by_cases hg : Sync.is_subpath cwd t master_path = true
  · rw [if_pos hg]
    simp
    omega
  · rw [if_neg hg]
    simp
    omega

/-- Helper: the count/skip totals over the inner candidate fold. -/
theorem moveFold_total (cwd : List String) (master_path dest : String) :
    ∀ (l : List String) (st : MoveState),
      (l.foldl (moveStep cwd master_path dest) st).count +
        (l.foldl (moveStep cwd master_path dest) st).skipped =
      st.count + st.skipped + l.length := by
  intro l
  induction l with
  | nil => intro st; simp
  | cons t rest ih =>
    intro st
    rw [List.foldl_cons, ih, moveStep_total]
    simp only [List.length_cons]
    omega

/-- Helper: the count/skip totals over the whole batch. -/
theorem move_dupes_total (cwd : List String) (master_path dest : String) :
    ∀ (results : List CrossDup) (st : MoveState),
      ((results.foldl
        (fun st d => d.target_files.foldl (moveStep cwd master_path dest) st) st).count +
       (results.foldl
        (fun st d => d.target_files.foldl (moveStep cwd master_path dest) st) st).skipped) =
      st.count + st.skipped + totalCandidates results := by
  intro results
  induction results with
  | nil => intro st; simp [totalCandidates]
  | cons d rest ih =>
    intro st
    rw [List.foldl_cons, ih, moveFold_total]
    simp only [totalCandidates, List.map_cons, List.sum_cons]
    omega

/-- Claim C6, confirmed. In `App.move_dupes`: every non-vetoed candidate
is moved to its base name under the destination folder, with a numeric
suffix appended before the extension and incremented from 1 until a name
not present on disk is found; in particular the chosen destination never
exists at the moment of the move (no move ever overwrites), the moved
counter equals the number of performed moves, and the reported pair of
counters accounts for every candidate as either moved or skipped. -/
theorem claim_C6 :
    (∀ (cwd : List String) (master_path dest : String) (scan_results : List CrossDup)
        (fs0 : List String),
        (move_dupes cwd master_path dest scan_results fs0).overwrote = false ∧
        (move_dupes cwd master_path dest scan_results fs0).count =
          (move_dupes cwd master_path dest scan_results fs0).movedPairs.length ∧
        (move_dupes cwd master_path dest scan_results fs0).count +
          (move_dupes cwd master_path dest scan_results fs0).skipped =
          totalCandidates scan_results)
    ∧ (∀ (fs : List String) (dest fname : String), findTarget fs dest fname ∉ fs)
    ∧ (∀ (fs : List String) (dest fname : String), pjoin dest fname ∉ fs →
        findTarget fs dest fname = pjoin dest fname)
    ∧ (∀ (fs : List String) (dest fname : String), pjoin dest fname ∈ fs →
        ∃ c, 1 ≤ c ∧
          findTarget fs dest fname =
            suffixName dest (splitext fname).1 (splitext fname).2 c ∧
          ∀ j, 1 ≤ j → j < c →
            suffixName dest (splitext fname).1 (splitext fname).2 j ∈ fs) := by
  refine ⟨?_, findTarget_not_mem, findTarget_base, findTarget_suffix⟩
  intro cwd master_path dest scan_results fs0
  refine ⟨?_, ?_, ?_⟩
  · exact foldl_preserve (fun (st : MoveState) => st.overwrote = false) _
      (fun st d h => foldl_preserve (fun (st : MoveState) => st.overwrote = false) _
        (moveStep_overwrote cwd master_path dest) d.target_files st h)
      scan_results ⟨fs0, 0, 0, [], false⟩ rfl
  · exact foldl_preserve (fun (st : MoveState) => st.count = st.movedPairs.length) _
      (fun st d h => foldl_preserve (fun (st : MoveState) => st.count = st.movedPairs.length) _
        (moveStep_count cwd master_path dest) d.target_files st h)
      scan_results ⟨fs0, 0, 0, [], false⟩ rfl
  · have htot := move_dupes_total cwd master_path dest scan_results ⟨fs0, 0, 0, [], false⟩
    unfold move_dupes
    simpa using htot

/-- Claim C6 witness: with `d/a.txt` already on disk, a second `a.txt`
moved into `d` gets the first free numeric-suffix name (concretely
`d/a_1.txt`, confirmed by evaluation). -/
theorem claim_C6_witness :
    (pjoin "d" "a.txt" ∈ ["d/a.txt"] ∧
      ∃ c, 1 ≤ c ∧
        findTarget ["d/a.txt"] "d" "a.txt" =
          suffixName "d" (splitext "a.txt").1 (splitext "a.txt").2 c ∧
        ∀ j, 1 ≤ j → j < c →
          suffixName "d" (splitext "a.txt").1 (splitext "a.txt").2 j ∈ ["d/a.txt"]) ∧
    findTarget ["d/a.txt"] "d" "a.txt" = "d/a_1.txt" :=
  ⟨⟨by decide, claim_C6.2.2.2 ["d/a.txt"] "d" "a.txt" (by decide)⟩, by decide⟩
